import Mathlib

/-!
# Render-side scene graph and geometry batching: MeshBuffer, EditorRenderHandle, NodeProxy

A shallow embedding of

* `cocos/renderer/scene/MeshBuffer.hpp` (offset bookkeeping of the mesh buffer),
* `cocos/editor-support/EditorRenderHandle.cpp` (`updateIA` / `renderIA`),
* `cocos/renderer/scene/NodeProxy.hpp` (group id accessors, dirty flag constants),

followed by the properties established about them. `MeshBuffer::request` and
`reallocBuffers` are only declared in the header; their bodies are modelled from the
specification and marked as such.

Conventions of the embedding:

* a C++ pointer is a `Nat` (an address; `0` is `nullptr`);
* a `uint32_t` is a `Nat` below `2 ^ 32`; unsigned subtraction is `u32sub`;
* an `int` is an `Int` (the functions embedded here only store `int` values);
* a `float` is kept as its 32 bit pattern, a `uint16_t` as a `Nat`;
* a method that updates its object returns the updated object.
-/

namespace cocos2d.renderer

/-! ## MeshBuffer (MeshBuffer.hpp) -/

/-- Number of values of a `uint32_t`. -/
def U32 : Nat := 2 ^ 32

/-- Subtraction of two `uint32_t` values as C++ computes it (modulo `2 ^ 32`). -/
def u32sub (a b : Nat) : Nat := (a + U32 - b % U32) % U32

/-- The struct `MeshBuffer::OffsetInfo`: a range handed out by a request. -/
structure OffsetInfo where
  vByte : Nat
  index : Nat
  vertex : Nat
deriving DecidableEq, Repr

/-- The data members of `class MeshBuffer`, public ones first, in the order of the header. -/
structure MeshBuffer where
  vData : List Nat
  iData : List Nat
  _vertexFmt : Nat
  _byteStart : Nat
  _byteOffset : Nat
  _indexStart : Nat
  _indexOffset : Nat
  _vertexStart : Nat
  _vertexOffset : Nat
  _bytesPerVertex : Nat
  _vDataCount : Nat
  _iDataCount : Nat
  _dirty : Bool
  _batcher : Nat
  _vb : Nat
  _ib : Nat
deriving DecidableEq, Repr

namespace MeshBuffer

/-- `static const int INIT_VERTEX_COUNT = 256;` -/
def INIT_VERTEX_COUNT : Nat := 256

/-- `static const uint8_t VDATA_BYTE = sizeof(float);` -/
def VDATA_BYTE : Nat := 4

/-- `static const uint8_t IDATA_BYTE = sizeof(uint16_t);` -/
def IDATA_BYTE : Nat := 2

/-- Every `uint32_t` member holds a 32 bit value. -/
def InRange (b : MeshBuffer) : Prop :=
  b._byteStart < U32 ∧ b._byteOffset < U32 ∧ b._indexStart < U32 ∧ b._indexOffset < U32 ∧
  b._vertexStart < U32 ∧ b._vertexOffset < U32 ∧ b._bytesPerVertex < U32 ∧
  b._vDataCount < U32 ∧ b._iDataCount < U32

instance (b : MeshBuffer) : Decidable b.InRange := by
  unfold InRange; infer_instance

/-- `uint32_t getByteOffset() const { return _byteOffset; }` -/
def getByteOffset (b : MeshBuffer) : Nat := b._byteOffset

/-- `uint32_t getVertexStart() const { return _vertexStart; }` -/
def getVertexStart (b : MeshBuffer) : Nat := b._vertexStart

/-- `uint32_t getVertexOffset() const { return _vertexOffset; }` -/
def getVertexOffset (b : MeshBuffer) : Nat := b._vertexOffset

/-- `uint32_t getIndexStart() const { return _indexStart; }` -/
def getIndexStart (b : MeshBuffer) : Nat := b._indexStart

/-- `uint32_t getIndexOffset() const { return _indexOffset; }` -/
def getIndexOffset (b : MeshBuffer) : Nat := b._indexOffset

/-- `VertexBuffer* getVertexBuffer() const { return _vb; }` -/
def getVertexBuffer (b : MeshBuffer) : Nat := b._vb

/-- `IndexBuffer* getIndexBuffer() const { return _ib; }` -/
def getIndexBuffer (b : MeshBuffer) : Nat := b._ib

/-- The three assignments of `void updateOffset()`, in source order. -/
def updateOffset (b : MeshBuffer) : MeshBuffer :=
  let b1 := { b with _byteStart := b._byteOffset }
  let b2 := { b1 with _vertexStart := b1._vertexOffset }
  { b2 with _indexStart := b2._indexOffset }

/-- A buffer in which four vertices and six indices were requested after the last
`updateOffset`: one quad of a 20 byte vertex format. -/
def quadPending : MeshBuffer :=
  { vData := List.replicate 20 0, iData := [0, 1, 2, 1, 3, 2], _vertexFmt := 1,
    _byteStart := 0, _byteOffset := 80, _indexStart := 0, _indexOffset := 6,
    _vertexStart := 0, _vertexOffset := 4, _bytesPerVertex := 20,
    _vDataCount := 20, _iDataCount := 6, _dirty := true, _batcher := 1, _vb := 2, _ib := 3 }

/-- Modelled from the spec: what the platform gives a buffer that grows (the allocator and
the GPU abstraction are not among the sources): the number of bytes of memory the two CPU
side blocks may occupy together, and the handles of the GPU buffers created on a resize. -/
structure Platform where
  memory : Nat
  vb : Nat
  ib : Nat
deriving DecidableEq, Repr

/-- Modelled from the spec: resizing a CPU side block (`std::vector::resize`) to `n`
elements: the elements below `n` are kept, new elements are zero. -/
def resize (l : List Nat) (n : Nat) : List Nat :=
  l.take n ++ List.replicate (n - l.length) 0

/-- Modelled from the spec: the growth rule of section 4.1 (MeshBuffer.cpp is not among the
sources). A capacity that the requested range does not exceed is kept; otherwise "capacity
grows by doubling (or to the minimum size satisfying the request, whichever is larger)". -/
def grownCapacity (capacity needed : Nat) : Nat :=
  if needed ≤ capacity then capacity else max (2 * capacity) needed

/-- Modelled from the spec: `reallocBuffers()` (MeshBuffer.cpp is not among the sources).
"CPU storage is reallocated preserving existing bytes, and GPU-side buffer objects are
destroyed and recreated at the new capacity"; allocation exhaustion is a failure (`none`). -/
def reallocBuffers (p : Platform) (b : MeshBuffer) : Option MeshBuffer :=
  if b._vDataCount * VDATA_BYTE + b._iDataCount * IDATA_BYTE ≤ p.memory then
    some { b with vData := resize b.vData b._vDataCount, iData := resize b.iData b._iDataCount,
                  _vb := p.vb, _ib := p.ib }
  else
    none

/-- Modelled from the spec: `request(vertexCount, indexCount, offset)` (MeshBuffer.cpp is not
among the sources). It "reserves space for vertexCount vertices and indexCount indices
starting at the current write cursor" and returns the byte, vertex and index offset of that
cursor; "if the reservation would exceed current capacity" it grows and copies before it
services the request; "requesting geometry with a vertex count of 0 is a valid no-op that
returns the current offsets unchanged and performs no growth"; a growth that cannot be
completed is the failure result (`none`). `_vDataCount` counts the floats of `vData`,
`_iDataCount` the indices of `iData`. The offsets are computed over the naturals: the spec
gives a served request its exact offsets ("growth never silently truncates"). -/
def request (p : Platform) (b : MeshBuffer) (vertexCount indexCount : Nat) :
    Option (MeshBuffer × OffsetInfo) :=
  let offset : OffsetInfo :=
    { vByte := b._byteOffset, index := b._indexOffset, vertex := b._vertexOffset }
  if vertexCount = 0 then
    some (b, offset)
  else
    let byteOffset := b._byteOffset + vertexCount * b._bytesPerVertex
    let indexOffset := b._indexOffset + indexCount
    let vNeeded := (byteOffset + VDATA_BYTE - 1) / VDATA_BYTE
    let vCount := grownCapacity b._vDataCount vNeeded
    let iCount := grownCapacity b._iDataCount indexOffset
    let grown : Option MeshBuffer :=
      if vCount = b._vDataCount ∧ iCount = b._iDataCount then some b
      else reallocBuffers p { b with _vDataCount := vCount, _iDataCount := iCount }
    grown.map fun b1 =>
      ({ b1 with _byteOffset := byteOffset, _indexOffset := indexOffset,
                 _vertexOffset := b._vertexOffset + vertexCount }, offset)

/-- A sequence of `request` calls, each given as (vertexCount, indexCount), run in order:
the final buffer and the offsets returned, oldest first; `none` if one of them fails. -/
def requestAll (p : Platform) (b : MeshBuffer) :
    List (Nat × Nat) → Option (MeshBuffer × List OffsetInfo)
  | [] => some (b, [])
  | (v, i) :: rest =>
    (request p b v i).bind fun r =>
      (requestAll p r.1 rest).map fun q => (q.1, r.2 :: q.2)

/-- The CPU side blocks have the recorded capacities and the write cursor lies inside them. -/
def Consistent (b : MeshBuffer) : Prop :=
  b.vData.length = b._vDataCount ∧ b.iData.length = b._iDataCount ∧
  b._byteOffset ≤ b._vDataCount * VDATA_BYTE ∧ b._indexOffset ≤ b._iDataCount

instance (b : MeshBuffer) : Decidable b.Consistent := by
  unfold Consistent; infer_instance

/-- An offset triple refers into the storage of the buffer: its byte offset is inside the
vertex block and its index offset inside the index block. -/
def Within (b : MeshBuffer) (o : OffsetInfo) : Prop :=
  o.vByte ≤ b.vData.length * VDATA_BYTE ∧ o.index ≤ b.iData.length

instance (b : MeshBuffer) (o : OffsetInfo) : Decidable (b.Within o) := by
  unfold Within; infer_instance

/-- The whole range reserved by a request of `vertexCount` vertices and `indexCount` indices
that was answered with the offsets `o` lies inside the storage of the buffer. -/
def RangeWithin (b : MeshBuffer) (vertexCount indexCount : Nat) (o : OffsetInfo) : Prop :=
  o.vByte + vertexCount * b._bytesPerVertex ≤ b.vData.length * VDATA_BYTE ∧
  o.index + indexCount ≤ b.iData.length

instance (b : MeshBuffer) (v i : Nat) (o : OffsetInfo) : Decidable (b.RangeWithin v i o) := by
  unfold RangeWithin; infer_instance

/-- The write cursor of a buffer as an offset triple: what the next request is answered
with. -/
def cursor (b : MeshBuffer) : OffsetInfo :=
  { vByte := b._byteOffset, index := b._indexOffset, vertex := b._vertexOffset }

/-- The cumulative vertex count of a sequence of requests, each given as
(vertexCount, indexCount). -/
def vertexTotal : List (Nat × Nat) → Nat
  | [] => 0
  | (v, _) :: rest => v + vertexTotal rest

/-- The cumulative index count of the requests of a sequence that reserve anything: a
request with a vertex count of 0 is a no-op and its index count is not counted. -/
def indexTotal : List (Nat × Nat) → Nat
  | [] => 0
  | (v, i) :: rest => (if v = 0 then 0 else i) + indexTotal rest

/-- The write cursor of `b` moved forward by the cumulative counts of the requests `rs`. -/
def cursorAfter (b : MeshBuffer) (rs : List (Nat × Nat)) : OffsetInfo :=
  { vByte := b._byteOffset + vertexTotal rs * b._bytesPerVertex,
    index := b._indexOffset + indexTotal rs,
    vertex := b._vertexOffset + vertexTotal rs }

/-- Modelled from the spec: a buffer as created, "with an initial capacity (default 256
vertices, index capacity derived from format)" (the constructor is not among the sources):
room for `INIT_VERTEX_COUNT` vertices of `bytesPerVertex` bytes (a multiple of four) and
`indexCapacity` indices, all offsets zero. -/
def create (batcher fmt bytesPerVertex indexCapacity vb ib : Nat) : MeshBuffer :=
  { vData := List.replicate (INIT_VERTEX_COUNT * bytesPerVertex / VDATA_BYTE) 0,
    iData := List.replicate indexCapacity 0, _vertexFmt := fmt,
    _byteStart := 0, _byteOffset := 0, _indexStart := 0, _indexOffset := 0,
    _vertexStart := 0, _vertexOffset := 0, _bytesPerVertex := bytesPerVertex,
    _vDataCount := INIT_VERTEX_COUNT * bytesPerVertex / VDATA_BYTE,
    _iDataCount := indexCapacity, _dirty := false, _batcher := batcher, _vb := vb, _ib := ib }

end MeshBuffer

/-! ## NodeProxy (NodeProxy.hpp) -/

/-- A `cocos2d::Mat4`: its sixteen floats, each as its bit pattern. -/
structure Mat4 where
  m : List Nat
deriving DecidableEq, Repr

/-- The non-static data members of `class NodeProxy`, in the order of the header. `_children`
holds the child pointers in order; `_handles` is the `std::map` from system id to handle
pointer, as its list of entries. -/
structure NodeProxy where
  _childrenOrderDirty : Bool
  _matrixUpdated : Bool
  _opacityUpdated : Bool
  _opacity : Nat
  _localZOrder : Int
  _groupID : Int
  _localMat : Mat4
  _worldMat : Mat4
  _name : String
  _jsTRSData : Nat
  _jsTRS : Nat
  _parent : Nat
  _children : List Nat
  _handles : List (String × Nat)
deriving DecidableEq, Repr

namespace NodeProxy

/-- `static const int _TRANSFORM = 1 << 0;` -/
def _TRANSFORM : Int := 1 <<< 0

/-- `static const int _UPDATE_RENDER_DATA = 1 << 1;` -/
def _UPDATE_RENDER_DATA : Int := 1 <<< 1

/-- `static const int _OPACITY = 1 << 2;` -/
def _OPACITY : Int := 1 <<< 2

/-- `static const int _COLOR = 1 << 3;` -/
def _COLOR : Int := 1 <<< 3

/-- `static const int _CHILDREN = 1 << 4;` -/
def _CHILDREN : Int := 1 <<< 4

/-- `static const int _POST_UPDATE_RENDER_DATA = 1 << 5;` -/
def _POST_UPDATE_RENDER_DATA : Int := 1 <<< 5

/-- The six dirty flag constants, in the order of the header. -/
def dirtyFlags : List Int :=
  [_TRANSFORM, _UPDATE_RENDER_DATA, _OPACITY, _COLOR, _CHILDREN, _POST_UPDATE_RENDER_DATA]

/-- `inline void setParent(NodeProxy* parent) { _parent = parent; }` -/
def setParent (n : NodeProxy) (parent : Nat) : NodeProxy := { n with _parent := parent }

/-- `inline NodeProxy* getParent() const { return _parent; }` -/
def getParent (n : NodeProxy) : Nat := n._parent

/-- `inline const Vector<NodeProxy*>& getChildren() const { return _children; }` -/
def getChildren (n : NodeProxy) : List Nat := n._children

/-- `inline size_t getChildrenCount() const { return _children.size(); }` -/
def getChildrenCount (n : NodeProxy) : Nat := n._children.length

/-- `inline void setChildrenOrderDirty() { _childrenOrderDirty = true; }` -/
def setChildrenOrderDirty (n : NodeProxy) : NodeProxy := { n with _childrenOrderDirty := true }

/-- `inline uint8_t getOpacity() const { return _opacity; }` -/
def getOpacity (n : NodeProxy) : Nat := n._opacity

/-- `inline int getGroupID() const { return _groupID; }` -/
def getGroupID (n : NodeProxy) : Int := n._groupID

/-- `inline void setGroupID(int groupID) { _groupID = groupID; }` -/
def setGroupID (n : NodeProxy) (groupID : Int) : NodeProxy := { n with _groupID := groupID }

/-- `inline const std::string& getName() const { return _name; }` -/
def getName (n : NodeProxy) : String := n._name

/-- `inline void setName(const std::string& name) { _name = name; }` -/
def setName (n : NodeProxy) (name : String) : NodeProxy := { n with _name := name }

end NodeProxy

/-! ## Collaborators of EditorRenderHandle that the sources only reference -/

/-- Modelled from the spec: the class `InputAssembler` (its header is not among the sources).
The spec describes draw submission as taking a vertex buffer handle, an index buffer handle,
a start and a count; these are the four members written by `updateIA`. -/
structure InputAssembler where
  _vertexBuffer : Nat
  _indexBuffer : Nat
  _start : Int
  _count : Int
deriving DecidableEq, Repr

namespace InputAssembler

/-- Modelled from the spec: `setVertexBuffer` stores the vertex buffer handle. -/
def setVertexBuffer (ia : InputAssembler) (vb : Nat) : InputAssembler :=
  { ia with _vertexBuffer := vb }

/-- Modelled from the spec: `setIndexBuffer` stores the index buffer handle. -/
def setIndexBuffer (ia : InputAssembler) (ib : Nat) : InputAssembler :=
  { ia with _indexBuffer := ib }

/-- Modelled from the spec: `setCount` stores the count of the draw range. -/
def setCount (ia : InputAssembler) (count : Int) : InputAssembler :=
  { ia with _count := count }

/-- Modelled from the spec: `setStart` stores the start of the draw range. -/
def setStart (ia : InputAssembler) (start : Int) : InputAssembler :=
  { ia with _start := start }

end InputAssembler

/-- Modelled from the spec: the class `ModelBatcher` (not among the sources). The spec only
says that a render handle emits a flush instruction to it; the batcher is represented by the
sequence of `InputAssembler*` arguments its `flushIA` has received, oldest first. -/
structure ModelBatcher where
  flushed : List Nat
deriving DecidableEq, Repr

/-- Modelled from the spec: `batcher->flushIA(ia)` records one flush of the assembler `ia`. -/
def ModelBatcher.flushIA (b : ModelBatcher) (ia : Nat) : ModelBatcher :=
  { b with flushed := b.flushed ++ [ia] }

end cocos2d.renderer

/-! ## EditorRenderHandle (EditorRenderHandle.cpp) -/

namespace editor

open cocos2d.renderer

/-- Modelled from the spec: the singleton `EditorManager` (its header is not among the
sources). `updateIA` only asks it for its current vertex and index buffer. -/
structure EditorManager where
  vb : Nat
  ib : Nat
deriving DecidableEq, Repr

/-- Modelled from the spec: `getVB()` returns the manager's current vertex buffer. -/
def EditorManager.getVB (m : EditorManager) : Nat := m.vb

/-- Modelled from the spec: `getIB()` returns the manager's current index buffer. -/
def EditorManager.getIB (m : EditorManager) : Nat := m.ib

/-- One call of `cocos2d::log`: the format string and its `%lu` argument. -/
structure LogLine where
  format : String
  arg : Nat
deriving DecidableEq, Repr

/-- The data members of `EditorRenderHandle` used in EditorRenderHandle.cpp. `_iaPool` is the
`std::vector` of `InputAssembler*`; `_editorMgr` is the pointer stored by the constructor. -/
structure EditorRenderHandle where
  _iaPool : List Nat
  _iaCount : Nat
  _editorMgr : Nat
  _useModel : Bool
deriving DecidableEq, Repr

/-- What the member functions of a handle read and write: the handle itself (`self`), the free
store of `InputAssembler` objects (an `InputAssembler*` is the position of its object in
`heap`; `new InputAssembler()` appends), and the lines written by `cocos2d::log`. -/
structure State where
  heap : List InputAssembler
  console : List LogLine
  self : EditorRenderHandle
deriving DecidableEq, Repr

/-- The message of the rejecting branch of `updateIA`. -/
def updateIAOutOfRange (index : Nat) : LogLine :=
  { format := "EditorRenderHandle:updateIA index:%lu is out of range", arg := index }

/-- The message of the rejecting branch of `renderIA`. -/
def renderIAOutOfRange (index : Nat) : LogLine :=
  { format := "EditorRenderHandle:renderIA index:%lu out of range", arg := index }

/-- The four setter calls that end `updateIA`, applied to the object `ia` points to, in
source order: `setVertexBuffer(_editorMgr->getVB())`, `setIndexBuffer(_editorMgr->getIB())`,
`setCount(count)`, `setStart(start)`. -/
def configure (mgr : EditorManager) (start count : Int) (obj : InputAssembler) :
    InputAssembler :=
  let obj1 := obj.setVertexBuffer mgr.getVB
  let obj2 := obj1.setIndexBuffer mgr.getIB
  let obj3 := obj2.setCount count
  obj3.setStart start

/-- The tail of `updateIA` after `ia` has been chosen: raise `_iaCount` to `index + 1` if it
is smaller, then the four setters through the pointer `ia`. Writing through a pointer that
is not a live object is undefined behaviour (`none`). `index + 1` cannot wrap: the branch is
only reached with `index <= _iaPool.size()`, which is below the largest `size_t`. -/
def updateIAWrite (mgr : EditorManager) (s : State) (ia index : Nat) (start count : Int) :
    Option State :=
  let newIACount := index + 1
  let self1 : EditorRenderHandle :=
    if s.self._iaCount < newIACount then { s.self with _iaCount := newIACount } else s.self
  match s.heap[ia]? with
  | none => none
  | some obj => some { s with heap := s.heap.set ia (configure mgr start count obj), self := self1 }

/-- The function `EditorRenderHandle::updateIA(index, start, count)`. `fresh` is the object
built by `new InputAssembler()` (the constructor is not among the sources), `mgr` the state
of the editor manager at the time of the call. -/
def updateIA (fresh : InputAssembler) (mgr : EditorManager) (s : State) (index : Nat)
    (start count : Int) : Option State :=
  let size := s.self._iaPool.length
  if index = size then
    let ia := s.heap.length
    let s1 : State :=
      { s with heap := s.heap ++ [fresh], self := { s.self with _iaPool := s.self._iaPool ++ [ia] } }
    updateIAWrite mgr s1 ia index start count
  else if h : index < size then
    let ia := s.self._iaPool[index]
    updateIAWrite mgr s ia index start count
  else
    some { s with console := s.console ++ [updateIAOutOfRange index] }

/-- The function `EditorRenderHandle::renderIA(index, batcher)`: the new state and the batcher
after the call. Reading `_iaPool[index]` past the end of the vector is undefined behaviour
(`none`). -/
def renderIA (s : State) (index : Nat) (batcher : ModelBatcher) : Option (State × ModelBatcher) :=
  if index ≥ s.self._iaCount then
    some ({ s with console := s.console ++ [renderIAOutOfRange index] }, batcher)
  else
    match s.self._iaPool[index]? with
    | none => none
    | some ia => some (s, batcher.flushIA ia)

/-- Modelled from the spec: the handle as the constructor leaves it, before any geometry
range has been given to it (the header with the member initialisers is not among the
sources): an empty pool and `_iaCount = 0`; the constructor body sets `_editorMgr` and
`_useModel = true`. -/
def EditorRenderHandle.empty (editorMgr : Nat) : EditorRenderHandle :=
  { _iaPool := [], _iaCount := 0, _editorMgr := editorMgr, _useModel := true }

/-- The class invariant: `_iaCount <= _iaPool.size()`. -/
def CountInv (s : State) : Prop := s.self._iaCount ≤ s.self._iaPool.length

instance (s : State) : Decidable (CountInv s) := by
  unfold CountInv; infer_instance

/-- Every pointer of the pool is a live object of the free store. -/
def PoolLive (s : State) : Prop := ∀ p ∈ s.self._iaPool, p < s.heap.length

instance (s : State) : Decidable (PoolLive s) := by
  unfold PoolLive; infer_instance

/-- No two positions of the pool hold the same pointer: every position has an object of its
own (the pool is only ever extended by `push_back(new InputAssembler())`). -/
def PoolDistinct (s : State) : Prop := s.self._iaPool.Nodup

instance (s : State) : Decidable (PoolDistinct s) := by
  unfold PoolDistinct; infer_instance

/-- The object `*_iaPool[index]`, when the pool has a position `index` and the pointer
stored there is live. -/
def assemblerAt (s : State) (index : Nat) : Option InputAssembler :=
  (s.self._iaPool[index]?).bind fun ia => s.heap[ia]?

/-- An assembler describes the draw range `start`, `count` in the manager's buffers. -/
def Describes (obj : InputAssembler) (mgr : EditorManager) (start count : Int) : Prop :=
  obj._start = start ∧ obj._count = count ∧
  obj._vertexBuffer = mgr.getVB ∧ obj._indexBuffer = mgr.getIB

instance (obj : InputAssembler) (mgr : EditorManager) (start count : Int) :
    Decidable (Describes obj mgr start count) := by
  unfold Describes; infer_instance

/-- One call on the handle: `updateIA` or `renderIA`, with its arguments. -/
inductive Call where
  | updateIA (fresh : InputAssembler) (mgr : EditorManager) (index : Nat) (start count : Int)
  | renderIA (index : Nat) (batcher : ModelBatcher)
deriving DecidableEq, Repr

/-- The state after one call, `none` when the call has undefined behaviour. -/
def Call.run (s : State) : Call → Option State
  | .updateIA fresh mgr index start count => editor.updateIA fresh mgr s index start count
  | .renderIA index batcher => (editor.renderIA s index batcher).map Prod.fst

/-- The state after a sequence of calls, run in order. -/
def runCalls (s : State) : List Call → Option State
  | [] => some s
  | c :: cs => (c.run s).bind (fun s1 => runCalls s1 cs)

/-- The states a handle can be in: those obtained from a freshly constructed handle by
calls of `updateIA` and `renderIA`. -/
def Reachable (s : State) : Prop :=
  ∃ (heap : List InputAssembler) (console : List LogLine) (editorMgr : Nat) (cs : List Call),
    runCalls { heap := heap, console := console, self := EditorRenderHandle.empty editorMgr } cs
      = some s

/-- An editor manager whose current buffers are the handles 7 and 8. -/
def mgr78 : EditorManager := { vb := 7, ib := 8 }

/-- An assembler that has not been configured: no buffers, start 0, count -1. -/
def blankIA : InputAssembler :=
  { _vertexBuffer := 0, _indexBuffer := 0, _start := 0, _count := -1 }

/-- Two ranges given to a handle, for the positions 0 and 1 of its pool. -/
def twoCalls : List Call :=
  [Call.updateIA blankIA mgr78 0 0 6, Call.updateIA blankIA mgr78 1 6 12]

/-- The state `twoCalls` leaves when run on a freshly constructed handle with an empty free
store and an empty console. -/
def twoRanges : State :=
  { heap := [{ _vertexBuffer := 7, _indexBuffer := 8, _start := 0, _count := 6 },
             { _vertexBuffer := 7, _indexBuffer := 8, _start := 6, _count := 12 }],
    console := [],
    self := { _iaPool := [0, 1], _iaCount := 2, _editorMgr := 1, _useModel := true } }

/-- A batcher that has received no flush yet. -/
def idleBatcher : ModelBatcher := { flushed := [] }

end editor

/-! ## Properties of MeshBuffer::updateOffset -/

namespace cocos2d.renderer.MeshBuffer

/-- C1: for every buffer state, after `updateOffset()` the start markers equal the current
offsets: `getVertexStart() == getVertexOffset()`, `getIndexStart() == getIndexOffset()`, and
the private byte start equals `getByteOffset()`. -/
theorem updateOffset_start_eq_offset (b : MeshBuffer) :
    b.updateOffset.getVertexStart = b.updateOffset.getVertexOffset ∧
    b.updateOffset.getIndexStart = b.updateOffset.getIndexOffset ∧
    b.updateOffset._byteStart = b.updateOffset.getByteOffset := by
  refine ⟨rfl, rfl, rfl⟩

/-- C2 as stated fails: in `quadPending` four vertices and six indices are pending
(`getVertexOffset() - getVertexStart() == 4`, `getIndexOffset() - getIndexStart() == 6`),
and after `updateOffset()` the two differences are not 4 and 6 (they are 0). -/
theorem updateOffset_drops_pending_counts :
    (quadPending.InRange ∧
      u32sub quadPending.getVertexOffset quadPending.getVertexStart = 4 ∧
      u32sub quadPending.getIndexOffset quadPending.getIndexStart = 6) ∧
    ¬ (u32sub quadPending.updateOffset.getVertexOffset quadPending.updateOffset.getVertexStart = 4 ∧
       u32sub quadPending.updateOffset.getIndexOffset quadPending.updateOffset.getIndexStart = 6) := by
  decide

/-- C2, amended: in a buffer state where `getVertexOffset() - getVertexStart() == N` and
`getIndexOffset() - getIndexStart() == M` (the counts requested since the last
`updateOffset`), calling `updateOffset()` moves the vertex start marker forward by `N` and
the index start marker by `M` (modulo `2 ^ 32`), so that afterwards both differences are 0. -/
theorem updateOffset_consumes_pending_counts (b : MeshBuffer) (N M : Nat) (hb : b.InRange)
    (hN : u32sub b.getVertexOffset b.getVertexStart = N)
    (hM : u32sub b.getIndexOffset b.getIndexStart = M) :
    b.updateOffset.getVertexStart = (b.getVertexStart + N) % U32 ∧
    b.updateOffset.getIndexStart = (b.getIndexStart + M) % U32 ∧
    u32sub b.updateOffset.getVertexOffset b.updateOffset.getVertexStart = 0 ∧
    u32sub b.updateOffset.getIndexOffset b.updateOffset.getIndexStart = 0 := by
  obtain ⟨_, _, h3, h4, h5, h6, _⟩ := hb
  subst hN hM
  simp only [updateOffset, getVertexStart, getVertexOffset, getIndexStart, getIndexOffset,
    u32sub, U32] at *
  refine ⟨?_, ?_, ?_, ?_⟩ <;> omega

/-- The amended C2 at `quadPending`: the start markers move from 0 to 4 and from 0 to 6. -/
theorem updateOffset_consumes_pending_counts_witness :
    quadPending.InRange ∧
    u32sub quadPending.getVertexOffset quadPending.getVertexStart = 4 ∧
    u32sub quadPending.getIndexOffset quadPending.getIndexStart = 6 ∧
    quadPending.updateOffset.getVertexStart = (quadPending.getVertexStart + 4) % U32 ∧
    quadPending.updateOffset.getIndexStart = (quadPending.getIndexStart + 6) % U32 ∧
    u32sub quadPending.updateOffset.getVertexOffset quadPending.updateOffset.getVertexStart = 0 ∧
    u32sub quadPending.updateOffset.getIndexOffset quadPending.updateOffset.getIndexStart = 0 :=
  ⟨by decide, by decide, by decide,
    updateOffset_consumes_pending_counts quadPending 4 6 (by decide) (by decide) (by decide)⟩

/-- C3: `updateOffset()` never moves the write cursor: `getByteOffset()`, `getVertexOffset()`
and `getIndexOffset()` return the same values after it as before, and the capacities, the
dirty flag, the buffer handles and every other member except the three start markers are
unchanged; the buffer after the call is the buffer before it with new start markers. -/
theorem updateOffset_frame (b : MeshBuffer) :
    (b.updateOffset.getByteOffset = b.getByteOffset ∧
     b.updateOffset.getVertexOffset = b.getVertexOffset ∧
     b.updateOffset.getIndexOffset = b.getIndexOffset) ∧
    (b.updateOffset._vDataCount = b._vDataCount ∧ b.updateOffset._iDataCount = b._iDataCount ∧
     b.updateOffset._bytesPerVertex = b._bytesPerVertex ∧
     b.updateOffset.vData = b.vData ∧ b.updateOffset.iData = b.iData) ∧
    (b.updateOffset._dirty = b._dirty ∧
     b.updateOffset.getVertexBuffer = b.getVertexBuffer ∧
     b.updateOffset.getIndexBuffer = b.getIndexBuffer ∧
     b.updateOffset._batcher = b._batcher ∧ b.updateOffset._vertexFmt = b._vertexFmt) ∧
    b.updateOffset =
      { b with _byteStart := b.updateOffset._byteStart,
               _vertexStart := b.updateOffset._vertexStart,
               _indexStart := b.updateOffset._indexStart } := by
  refine ⟨⟨rfl, rfl, rfl⟩, ⟨rfl, rfl, rfl, rfl, rfl⟩, ⟨rfl, rfl, rfl, rfl, rfl⟩, rfl⟩

end cocos2d.renderer.MeshBuffer

/-! ## Lemmas on updateIA and renderIA: the branches taken, and what they preserve -/

namespace editor
open cocos2d.renderer

theorem configure_describes (mgr : EditorManager) (start count : Int) (obj : InputAssembler) :
    Describes (configure mgr start count obj) mgr start count := by
  simp [Describes, configure, InputAssembler.setVertexBuffer, InputAssembler.setIndexBuffer,
    InputAssembler.setCount, InputAssembler.setStart]

theorem updateIAWrite_eq (mgr : EditorManager) (s : State) (ia index : Nat) (start count : Int)
    (obj : InputAssembler) (h : s.heap[ia]? = some obj) :
    updateIAWrite mgr s ia index start count =
      some { s with heap := s.heap.set ia (configure mgr start count obj),
                    self := { s.self with _iaCount := max s.self._iaCount (index + 1) } } := by
  unfold updateIAWrite
  simp only [h]
  by_cases hc : s.self._iaCount < index + 1
  · simp [hc, Nat.max_eq_right (Nat.le_of_lt hc)]
  · have : max s.self._iaCount (index + 1) = s.self._iaCount := Nat.max_eq_left (by omega)
    simp [hc, this]

theorem updateIA_append (fresh : InputAssembler) (mgr : EditorManager) (s : State)
    (index : Nat) (start count : Int) (h : index = s.self._iaPool.length) :
    updateIA fresh mgr s index start count =
      some { heap := s.heap ++ [configure mgr start count fresh], console := s.console,
             self := { s.self with _iaPool := s.self._iaPool ++ [s.heap.length],
                                   _iaCount := max s.self._iaCount (index + 1) } } := by
  unfold updateIA
  simp only [h, if_true]
  rw [updateIAWrite_eq mgr _ _ _ _ _ fresh (by simp)]
  simp

theorem updateIA_inplace (fresh : InputAssembler) (mgr : EditorManager) (s : State)
    (index : Nat) (start count : Int) (h : index < s.self._iaPool.length)
    (obj : InputAssembler) (hobj : s.heap[s.self._iaPool[index]]? = some obj) :
    updateIA fresh mgr s index start count =
      some { s with heap := s.heap.set s.self._iaPool[index] (configure mgr start count obj),
                    self := { s.self with _iaCount := max s.self._iaCount (index + 1) } } := by
  unfold updateIA
  simp only [Nat.ne_of_lt h, if_false, h, dite_true]
  exact updateIAWrite_eq mgr s _ index start count obj hobj

theorem updateIA_reject (fresh : InputAssembler) (mgr : EditorManager) (s : State)
    (index : Nat) (start count : Int) (h : s.self._iaPool.length < index) :
    updateIA fresh mgr s index start count =
      some { s with console := s.console ++ [updateIAOutOfRange index] } := by
  unfold updateIA
  have h1 : ¬ index = s.self._iaPool.length := by omega
  have h2 : ¬ index < s.self._iaPool.length := by omega
  simp [h1, h2]

theorem updateIA_dangling (fresh : InputAssembler) (mgr : EditorManager) (s : State)
    (index : Nat) (start count : Int) (h : index < s.self._iaPool.length)
    (hobj : s.heap[s.self._iaPool[index]]? = none) :
    updateIA fresh mgr s index start count = none := by
  unfold updateIA
  simp only [Nat.ne_of_lt h, if_false, h, dite_true]
  unfold updateIAWrite
  simp only [hobj]

/-- The three ways a call of `updateIA` can return. -/
theorem updateIA_some_cases (fresh : InputAssembler) (mgr : EditorManager) (s s' : State)
    (index : Nat) (start count : Int) (h : updateIA fresh mgr s index start count = some s') :
    (index = s.self._iaPool.length ∧
      s' = { heap := s.heap ++ [configure mgr start count fresh], console := s.console,
             self := { s.self with _iaPool := s.self._iaPool ++ [s.heap.length],
                                   _iaCount := max s.self._iaCount (index + 1) } }) ∨
    (∃ (hlt : index < s.self._iaPool.length) (obj : InputAssembler),
      s.heap[s.self._iaPool[index]]? = some obj ∧
      s' = { s with heap := s.heap.set s.self._iaPool[index] (configure mgr start count obj),
                    self := { s.self with _iaCount := max s.self._iaCount (index + 1) } }) ∨
    (s.self._iaPool.length < index ∧
      s' = { s with console := s.console ++ [updateIAOutOfRange index] }) := by
  rcases Nat.lt_trichotomy index s.self._iaPool.length with hlt | heq | hgt
  · right; left
    refine ⟨hlt, ?_⟩
    cases hobj : s.heap[s.self._iaPool[index]]? with
    | none => rw [updateIA_dangling fresh mgr s index start count hlt hobj] at h; cases h
    | some obj =>
      rw [updateIA_inplace fresh mgr s index start count hlt obj hobj] at h
      exact ⟨obj, rfl, (Option.some.inj h).symm⟩
  · left
    rw [updateIA_append fresh mgr s index start count heq] at h
    exact ⟨heq, (Option.some.inj h).symm⟩
  · right; right
    rw [updateIA_reject fresh mgr s index start count hgt] at h
    exact ⟨hgt, (Option.some.inj h).symm⟩

theorem poolLive_lookup (s : State) (hlive : PoolLive s) (index : Nat)
    (h : index < s.self._iaPool.length) :
    ∃ obj, s.heap[s.self._iaPool[index]]? = some obj := by
  have hp : s.self._iaPool[index] < s.heap.length := hlive _ (List.getElem_mem h)
  exact ⟨s.heap[s.self._iaPool[index]], by simp [hp]⟩

/-- On a handle whose pool pointers are live, `updateIA` returns. -/
theorem updateIA_returns (fresh : InputAssembler) (mgr : EditorManager) (s : State)
    (index : Nat) (start count : Int) (hlive : PoolLive s) :
    ∃ s', updateIA fresh mgr s index start count = some s' := by
  rcases Nat.lt_trichotomy index s.self._iaPool.length with hlt | heq | hgt
  · obtain ⟨obj, hobj⟩ := poolLive_lookup s hlive index hlt
    exact ⟨_, updateIA_inplace fresh mgr s index start count hlt obj hobj⟩
  · exact ⟨_, updateIA_append fresh mgr s index start count heq⟩
  · exact ⟨_, updateIA_reject fresh mgr s index start count hgt⟩

theorem updateIA_countInv (fresh : InputAssembler) (mgr : EditorManager) (s s' : State)
    (index : Nat) (start count : Int) (hinv : CountInv s)
    (h : updateIA fresh mgr s index start count = some s') : CountInv s' := by
  unfold CountInv at *
  rcases updateIA_some_cases fresh mgr s s' index start count h with
    ⟨heq, rfl⟩ | ⟨hlt, obj, _, rfl⟩ | ⟨_, rfl⟩
  · simp only [List.length_append, List.length_singleton]; omega
  · simp only; omega
  · exact hinv

theorem updateIA_poolLive (fresh : InputAssembler) (mgr : EditorManager) (s s' : State)
    (index : Nat) (start count : Int) (hlive : PoolLive s)
    (h : updateIA fresh mgr s index start count = some s') : PoolLive s' := by
  unfold PoolLive at *
  rcases updateIA_some_cases fresh mgr s s' index start count h with
    ⟨heq, rfl⟩ | ⟨hlt, obj, _, rfl⟩ | ⟨_, rfl⟩
  · intro p hp
    simp only [List.mem_append, List.mem_singleton] at hp
    simp only [List.length_append, List.length_singleton]
    rcases hp with hp | rfl
    · have := hlive p hp; omega
    · omega
  · intro p hp
    simp only [List.length_set]
    exact hlive p hp
  · exact hlive

theorem renderIA_some_cases (s s' : State) (index : Nat) (batcher batcher' : ModelBatcher)
    (h : renderIA s index batcher = some (s', batcher')) :
    (s.self._iaCount ≤ index ∧
      s' = { s with console := s.console ++ [renderIAOutOfRange index] } ∧ batcher' = batcher) ∨
    (index < s.self._iaCount ∧ ∃ ia, s.self._iaPool[index]? = some ia ∧
      s' = s ∧ batcher' = batcher.flushIA ia) := by
  unfold renderIA at h
  by_cases hc : index ≥ s.self._iaCount
  · left
    simp only [hc, if_true, Option.some.injEq, Prod.mk.injEq] at h
    exact ⟨hc, h.1.symm, h.2.symm⟩
  · right
    simp only [hc, if_false] at h
    refine ⟨by omega, ?_⟩
    cases hp : s.self._iaPool[index]? with
    | none => simp [hp] at h
    | some ia =>
      simp only [hp, Option.some.injEq, Prod.mk.injEq] at h
      exact ⟨ia, rfl, h.1.symm, h.2.symm⟩

theorem renderIA_self_heap (s s' : State) (index : Nat) (batcher batcher' : ModelBatcher)
    (h : renderIA s index batcher = some (s', batcher')) :
    s'.self = s.self ∧ s'.heap = s.heap := by
  rcases renderIA_some_cases s s' index batcher batcher' h with
    ⟨_, rfl, _⟩ | ⟨_, ia, _, rfl, _⟩ <;> exact ⟨rfl, rfl⟩

theorem renderIA_returns (s : State) (index : Nat) (batcher : ModelBatcher)
    (hinv : CountInv s) : ∃ r, renderIA s index batcher = some r := by
  unfold renderIA
  by_cases hc : index ≥ s.self._iaCount
  · exact ⟨({ s with console := s.console ++ [renderIAOutOfRange index] }, batcher),
      by simp only [hc, if_true]⟩
  · have hlt : index < s.self._iaPool.length := by unfold CountInv at hinv; omega
    refine ⟨(s, batcher.flushIA s.self._iaPool[index]), ?_⟩
    simp [hc, hlt]

theorem run_countInv (c : Call) (s s' : State) (hinv : CountInv s)
    (h : c.run s = some s') : CountInv s' := by
  cases c with
  | updateIA fresh mgr index start count =>
    exact updateIA_countInv fresh mgr s s' index start count hinv h
  | renderIA index batcher =>
    simp only [Call.run, Option.map_eq_some', Prod.exists, exists_and_right, exists_eq_right] at h
    obtain ⟨b', hb⟩ := h
    have := (renderIA_self_heap s s' index batcher b' hb).1
    unfold CountInv at *
    rw [this]; exact hinv

theorem run_poolLive (c : Call) (s s' : State) (hlive : PoolLive s)
    (h : c.run s = some s') : PoolLive s' := by
  cases c with
  | updateIA fresh mgr index start count =>
    exact updateIA_poolLive fresh mgr s s' index start count hlive h
  | renderIA index batcher =>
    simp only [Call.run, Option.map_eq_some', Prod.exists, exists_and_right, exists_eq_right] at h
    obtain ⟨b', hb⟩ := h
    have h2 := renderIA_self_heap s s' index batcher b' hb
    unfold PoolLive at *
    rw [h2.1, h2.2]; exact hlive

theorem run_returns (c : Call) (s : State) (hinv : CountInv s) (hlive : PoolLive s) :
    ∃ s', c.run s = some s' := by
  cases c with
  | updateIA fresh mgr index start count =>
    exact updateIA_returns fresh mgr s index start count hlive
  | renderIA index batcher =>
    obtain ⟨r, hr⟩ := renderIA_returns s index batcher hinv
    exact ⟨r.1, by simp [Call.run, hr]⟩

theorem runCalls_inv (cs : List Call) (s s' : State) (hinv : CountInv s) (hlive : PoolLive s)
    (h : runCalls s cs = some s') : CountInv s' ∧ PoolLive s' := by
  induction cs generalizing s with
  | nil =>
    simp only [runCalls, Option.some.injEq] at h
    subst h; exact ⟨hinv, hlive⟩
  | cons c cs ih =>
    simp only [runCalls, Option.bind_eq_some] at h
    obtain ⟨s1, h1, h2⟩ := h
    exact ih s1 (run_countInv c s s1 hinv h1) (run_poolLive c s s1 hlive h1) h2

theorem reachable_inv (s : State) (h : Reachable s) : CountInv s ∧ PoolLive s := by
  obtain ⟨heap, console, editorMgr, cs, hrun⟩ := h
  refine runCalls_inv cs _ s ?_ ?_ hrun
  · simp [CountInv, EditorRenderHandle.empty]
  · simp [PoolLive, EditorRenderHandle.empty]

end editor

/-! ## Properties of EditorRenderHandle::renderIA and updateIA -/

namespace editor
open cocos2d.renderer

/-- C4: on a handle with `_iaCount <= _iaPool.size()`, `renderIA(index, batcher)` returns and
leaves the handle and the assemblers as they are; it issues a flush to the batcher if and
only if `index < _iaCount`; when it does, the batcher receives exactly one flush, of the
assembler stored at `_iaPool[index]`, and nothing is logged; otherwise it only logs and the
batcher is untouched. In particular with `_iaCount = 0` the batcher is untouched for every
index. -/
theorem renderIA_flushes_iff_index_lt_iaCount (s : State) (index : Nat)
    (batcher : ModelBatcher) (hinv : CountInv s) :
    ∃ s' batcher', renderIA s index batcher = some (s', batcher') ∧
      s'.self = s.self ∧ s'.heap = s.heap ∧
      (batcher' ≠ batcher ↔ index < s.self._iaCount) ∧
      (index < s.self._iaCount →
        ∃ ia, s.self._iaPool[index]? = some ia ∧
          batcher'.flushed = batcher.flushed ++ [ia] ∧ s'.console = s.console) ∧
      (¬ index < s.self._iaCount →
        batcher' = batcher ∧ s'.console = s.console ++ [renderIAOutOfRange index]) ∧
      (s.self._iaCount = 0 → batcher' = batcher) := by
  obtain ⟨⟨s', batcher'⟩, hr⟩ := renderIA_returns s index batcher hinv
  refine ⟨s', batcher', hr, (renderIA_self_heap s s' index batcher batcher' hr).1,
    (renderIA_self_heap s s' index batcher batcher' hr).2, ?_⟩
  rcases renderIA_some_cases s s' index batcher batcher' hr with
    ⟨hge, rfl, rfl⟩ | ⟨hlt, ia, hia, rfl, rfl⟩
  · refine ⟨?_, ?_, ?_, ?_⟩
    · constructor
      · intro h; exact absurd rfl h
      · intro h; omega
    · intro h; omega
    · intro _; exact ⟨rfl, rfl⟩
    · intro _; rfl
  · have hne : batcher.flushIA ia ≠ batcher := by
      intro h
      have := congrArg (fun b => b.flushed.length) h
      simp [ModelBatcher.flushIA] at this
    refine ⟨?_, ?_, ?_, ?_⟩
    · exact ⟨fun _ => hlt, fun _ => hne⟩
    · intro _; exact ⟨ia, hia, rfl, rfl⟩
    · intro h; exact absurd hlt h
    · intro h; omega

/-- C4 at `twoRanges`: rendering position 1 of a handle with two ranges flushes the assembler
stored there. -/
theorem renderIA_flushes_iff_index_lt_iaCount_witness :
    CountInv twoRanges ∧
    ∃ s' batcher', renderIA twoRanges 1 idleBatcher = some (s', batcher') ∧
      s'.self = twoRanges.self ∧ s'.heap = twoRanges.heap ∧
      (batcher' ≠ idleBatcher ↔ 1 < twoRanges.self._iaCount) ∧
      (1 < twoRanges.self._iaCount →
        ∃ ia, twoRanges.self._iaPool[1]? = some ia ∧
          batcher'.flushed = idleBatcher.flushed ++ [ia] ∧ s'.console = twoRanges.console) ∧
      (¬ 1 < twoRanges.self._iaCount →
        batcher' = idleBatcher ∧
        s'.console = twoRanges.console ++ [renderIAOutOfRange 1]) ∧
      (twoRanges.self._iaCount = 0 → batcher' = idleBatcher) :=
  ⟨by decide, renderIA_flushes_iff_index_lt_iaCount twoRanges 1 idleBatcher (by decide)⟩

/-- C5: `updateIA(index, start, count)` with `index` greater than the pool size is a no-op on
the handle and on every assembler (it only logs); and on a handle whose pool pointers are
live the call returns, and it succeeds (the pool then has an assembler at `index` describing
the given range; nothing is logged) if and only if `index <= _iaPool.size()`. -/
theorem updateIA_succeeds_iff_index_le_size (fresh : InputAssembler) (mgr : EditorManager)
    (s : State) (index : Nat) (start count : Int) :
    (s.self._iaPool.length < index →
      updateIA fresh mgr s index start count =
        some { s with console := s.console ++ [updateIAOutOfRange index] }) ∧
    (PoolLive s →
      ∃ s', updateIA fresh mgr s index start count = some s' ∧
        ((∃ obj, assemblerAt s' index = some obj ∧ Describes obj mgr start count) ↔
          index ≤ s.self._iaPool.length) ∧
        (s'.console = s.console ↔ index ≤ s.self._iaPool.length) ∧
        (s.self._iaPool.length < index → s'.self = s.self ∧ s'.heap = s.heap)) := by
  refine ⟨updateIA_reject fresh mgr s index start count, ?_⟩
  intro hlive
  rcases Nat.lt_trichotomy index s.self._iaPool.length with hlt | heq | hgt
  · obtain ⟨obj, hobj⟩ := poolLive_lookup s hlive index hlt
    refine ⟨_, updateIA_inplace fresh mgr s index start count hlt obj hobj, ?_, ?_, ?_⟩
    · refine ⟨fun _ => Nat.le_of_lt hlt, fun _ => ⟨configure mgr start count obj, ?_,
        configure_describes mgr start count obj⟩⟩
      have hp : s.self._iaPool[index] < s.heap.length := hlive _ (List.getElem_mem hlt)
      simp [assemblerAt, hlt, hp]
    · exact ⟨fun _ => Nat.le_of_lt hlt, fun _ => rfl⟩
    · intro h; omega
  · refine ⟨_, updateIA_append fresh mgr s index start count heq, ?_, ?_, ?_⟩
    · refine ⟨fun _ => Nat.le_of_eq heq, fun _ => ⟨configure mgr start count fresh, ?_,
        configure_describes mgr start count fresh⟩⟩
      simp [assemblerAt, heq]
    · exact ⟨fun _ => Nat.le_of_eq heq, fun _ => rfl⟩
    · intro h; omega
  · refine ⟨_, updateIA_reject fresh mgr s index start count hgt, ?_, ?_, ?_⟩
    · constructor
      · rintro ⟨obj, hobj, _⟩
        have hnone : s.self._iaPool[index]? = none := List.getElem?_eq_none (by omega)
        simp [assemblerAt, hnone] at hobj
      · intro h; omega
    · constructor
      · intro h
        have := congrArg List.length h
        simp at this
      · intro h; omega
    · intro _; exact ⟨rfl, rfl⟩

/-- C5 at `twoRanges`: index 3 is rejected by a pool of size 2 and changes nothing but the
console; the pool pointers of `twoRanges` are live. -/
theorem updateIA_succeeds_iff_index_le_size_witness :
    twoRanges.self._iaPool.length < 3 ∧ PoolLive twoRanges ∧
    updateIA blankIA mgr78 twoRanges 3 12 6 =
      some { twoRanges with console := twoRanges.console ++ [updateIAOutOfRange 3] } ∧
    ∃ s', updateIA blankIA mgr78 twoRanges 3 12 6 = some s' ∧
      ((∃ obj, assemblerAt s' 3 = some obj ∧ Describes obj mgr78 12 6) ↔
        3 ≤ twoRanges.self._iaPool.length) ∧
      (s'.console = twoRanges.console ↔ 3 ≤ twoRanges.self._iaPool.length) ∧
      (twoRanges.self._iaPool.length < 3 →
        s'.self = twoRanges.self ∧ s'.heap = twoRanges.heap) :=
  ⟨by decide, by decide,
    (updateIA_succeeds_iff_index_le_size blankIA mgr78 twoRanges 3 12 6).1 (by decide),
    (updateIA_succeeds_iff_index_le_size blankIA mgr78 twoRanges 3 12 6).2 (by decide)⟩

/-- C6: on a handle whose pool pointers are live, for every `index <= _iaPool.size()`,
`updateIA(index, start, count)` returns and a following `renderIA(index, batcher)` flushes:
the batcher receives the assembler stored at `_iaPool[index]`, and that assembler has the
start and count given to `updateIA` and the editor manager's current vertex and index
buffers. -/
theorem renderIA_after_updateIA (fresh : InputAssembler) (mgr : EditorManager) (s : State)
    (index : Nat) (start count : Int) (batcher : ModelBatcher) (hlive : PoolLive s)
    (hidx : index ≤ s.self._iaPool.length) :
    ∃ s1 ia obj, updateIA fresh mgr s index start count = some s1 ∧
      renderIA s1 index batcher = some (s1, batcher.flushIA ia) ∧
      (batcher.flushIA ia).flushed = batcher.flushed ++ [ia] ∧
      s1.self._iaPool[index]? = some ia ∧ s1.heap[ia]? = some obj ∧
      Describes obj mgr start count := by
  rcases Nat.lt_or_eq_of_le hidx with hlt | heq
  · obtain ⟨obj, hobj⟩ := poolLive_lookup s hlive index hlt
    have hp : s.self._iaPool[index] < s.heap.length := hlive _ (List.getElem_mem hlt)
    refine ⟨_, s.self._iaPool[index], configure mgr start count obj,
      updateIA_inplace fresh mgr s index start count hlt obj hobj, ?_, rfl, ?_, ?_,
      configure_describes mgr start count obj⟩
    · have hc : ¬ index ≥ max s.self._iaCount (index + 1) := by omega
      simp [renderIA, hc, hlt]
    · simp [hlt]
    · simp [hp]
  · refine ⟨_, s.heap.length, configure mgr start count fresh,
      updateIA_append fresh mgr s index start count heq, ?_, rfl, ?_, ?_,
      configure_describes mgr start count fresh⟩
    · have hc : ¬ index ≥ max s.self._iaCount (index + 1) := by omega
      simp [renderIA, hc, heq]
    · simp [heq]
    · simp

/-- C6 at `twoRanges`: a third range given for index 2 (the pool size) is what a following
`renderIA(2, batcher)` flushes. -/
theorem renderIA_after_updateIA_witness :
    PoolLive twoRanges ∧ 2 ≤ twoRanges.self._iaPool.length ∧
    ∃ s1 ia obj, updateIA blankIA mgr78 twoRanges 2 18 6 = some s1 ∧
      renderIA s1 2 idleBatcher = some (s1, idleBatcher.flushIA ia) ∧
      (idleBatcher.flushIA ia).flushed = idleBatcher.flushed ++ [ia] ∧
      s1.self._iaPool[2]? = some ia ∧ s1.heap[ia]? = some obj ∧
      Describes obj mgr78 18 6 :=
  ⟨by decide, by decide,
    renderIA_after_updateIA blankIA mgr78 twoRanges 2 18 6 idleBatcher (by decide) (by decide)⟩

/-- C9: `_iaCount <= _iaPool.size()` is an invariant of the handle. From any state where it
holds, every `updateIA` call that returns (storing or rejecting) and every `renderIA` call
that returns leaves a state where it holds. In every state reachable from an empty handle it
holds, every further call returns and keeps it, and for every `index < _iaCount` the access
`_iaPool[index]` of `renderIA` is inside the pool, so `renderIA` flushes the assembler
found there. -/
theorem iaCount_le_pool_size_invariant (s : State) :
    (CountInv s →
      (∀ fresh mgr index start count s',
        updateIA fresh mgr s index start count = some s' → CountInv s') ∧
      (∀ index batcher s' batcher',
        renderIA s index batcher = some (s', batcher') → CountInv s')) ∧
    (Reachable s →
      CountInv s ∧
      (∀ fresh mgr index start count,
        ∃ s', updateIA fresh mgr s index start count = some s' ∧ CountInv s') ∧
      (∀ index batcher,
        ∃ s' batcher', renderIA s index batcher = some (s', batcher') ∧ CountInv s') ∧
      (∀ index, index < s.self._iaCount →
        index < s.self._iaPool.length ∧
        ∀ batcher, ∃ ia, s.self._iaPool[index]? = some ia ∧
          renderIA s index batcher = some (s, batcher.flushIA ia))) := by
  constructor
  · intro hinv
    constructor
    · intro fresh mgr index start count s' h
      exact updateIA_countInv fresh mgr s s' index start count hinv h
    · intro index batcher s' batcher' h
      exact run_countInv (Call.renderIA index batcher) s s' hinv (by simp [Call.run, h])
  · intro hreach
    obtain ⟨hinv, hlive⟩ := reachable_inv s hreach
    refine ⟨hinv, ?_, ?_, ?_⟩
    · intro fresh mgr index start count
      obtain ⟨s', hs'⟩ := updateIA_returns fresh mgr s index start count hlive
      exact ⟨s', hs', updateIA_countInv fresh mgr s s' index start count hinv hs'⟩
    · intro index batcher
      obtain ⟨⟨s', batcher'⟩, hr⟩ := renderIA_returns s index batcher hinv
      exact ⟨s', batcher', hr,
        run_countInv (Call.renderIA index batcher) s s' hinv (by simp [Call.run, hr])⟩
    · intro index hlt
      have hin : index < s.self._iaPool.length := by unfold CountInv at hinv; omega
      refine ⟨hin, fun batcher => ⟨s.self._iaPool[index], by simp [hin], ?_⟩⟩
      have hc : ¬ index ≥ s.self._iaCount := by omega
      simp [renderIA, hc, hin]

/-- C9 at `twoRanges`, which is reached from an empty handle by `twoCalls`. -/
theorem iaCount_le_pool_size_invariant_witness :
    CountInv twoRanges ∧ Reachable twoRanges ∧
    ((∀ fresh mgr index start count s',
        updateIA fresh mgr twoRanges index start count = some s' → CountInv s') ∧
      (∀ index batcher s' batcher',
        renderIA twoRanges index batcher = some (s', batcher') → CountInv s')) ∧
    (∀ index, index < twoRanges.self._iaCount →
        index < twoRanges.self._iaPool.length ∧
        ∀ batcher, ∃ ia, twoRanges.self._iaPool[index]? = some ia ∧
          renderIA twoRanges index batcher = some (twoRanges, batcher.flushIA ia)) :=
  ⟨by decide, ⟨[], [], 1, twoCalls, by decide⟩,
    (iaCount_le_pool_size_invariant twoRanges).1 (by decide),
    ((iaCount_le_pool_size_invariant twoRanges).2 ⟨[], [], 1, twoCalls, by decide⟩).2.2.2⟩

/-- C10: on a handle whose pool pointers are live `updateIA(index, start, count)` returns; if
`index <= ` the old pool size, the new pool size is `max(old size, index + 1)` (one more when
`index` equals the old size, the same when it is smaller) and the new `_iaCount` is
`max(old _iaCount, index + 1)`; and for every index neither the pool size nor `_iaCount`
decreases. -/
theorem updateIA_pool_size_and_iaCount (fresh : InputAssembler) (mgr : EditorManager)
    (s : State) (index : Nat) (start count : Int) (hlive : PoolLive s) :
    ∃ s', updateIA fresh mgr s index start count = some s' ∧
      (index ≤ s.self._iaPool.length →
        s'.self._iaPool.length = max s.self._iaPool.length (index + 1) ∧
        s'.self._iaCount = max s.self._iaCount (index + 1)) ∧
      (index = s.self._iaPool.length →
        s'.self._iaPool.length = s.self._iaPool.length + 1) ∧
      (index < s.self._iaPool.length → s'.self._iaPool.length = s.self._iaPool.length) ∧
      s.self._iaPool.length ≤ s'.self._iaPool.length ∧
      s.self._iaCount ≤ s'.self._iaCount := by
  obtain ⟨s', hs'⟩ := updateIA_returns fresh mgr s index start count hlive
  refine ⟨s', hs', ?_⟩
  rcases updateIA_some_cases fresh mgr s s' index start count hs' with
    ⟨heq, rfl⟩ | ⟨hlt, obj, _, rfl⟩ | ⟨hgt, rfl⟩
  all_goals
    refine ⟨fun _ => ⟨?_, ?_⟩, fun _ => ?_, fun _ => ?_, ?_, ?_⟩ <;>
      (try dsimp only) <;>
      (try simp only [List.length_append, List.length_singleton]) <;> omega

/-- C10 at `twoRanges`: index 2 on a pool of size 2 makes the pool size and `_iaCount` 3. -/
theorem updateIA_pool_size_and_iaCount_witness :
    PoolLive twoRanges ∧
    ∃ s', updateIA blankIA mgr78 twoRanges 2 18 6 = some s' ∧
      (2 ≤ twoRanges.self._iaPool.length →
        s'.self._iaPool.length = max twoRanges.self._iaPool.length (2 + 1) ∧
        s'.self._iaCount = max twoRanges.self._iaCount (2 + 1)) ∧
      (2 = twoRanges.self._iaPool.length →
        s'.self._iaPool.length = twoRanges.self._iaPool.length + 1) ∧
      (2 < twoRanges.self._iaPool.length →
        s'.self._iaPool.length = twoRanges.self._iaPool.length) ∧
      twoRanges.self._iaPool.length ≤ s'.self._iaPool.length ∧
      twoRanges.self._iaCount ≤ s'.self._iaCount :=
  ⟨by decide, updateIA_pool_size_and_iaCount blankIA mgr78 twoRanges 2 18 6 (by decide)⟩

end editor

/-! ## Properties of NodeProxy::setGroupID -/

namespace cocos2d.renderer.NodeProxy

/-- C7: NodeProxy only stores and exposes the group id: for every node and every integer
`g`, `getGroupID()` after `setGroupID(g)` returns `g`, and `setGroupID` changes no other
member of the node (opacity, local z-order, children-order-dirty flag, name, parent,
children, handles, matrices and the remaining flags and pointers are unchanged). -/
theorem getGroupID_setGroupID (n : NodeProxy) (g : Int) :
    (n.setGroupID g).getGroupID = g ∧
    ((n.setGroupID g).getOpacity = n.getOpacity ∧
     (n.setGroupID g)._localZOrder = n._localZOrder ∧
     (n.setGroupID g)._childrenOrderDirty = n._childrenOrderDirty ∧
     (n.setGroupID g).getName = n.getName ∧
     (n.setGroupID g).getParent = n.getParent ∧
     (n.setGroupID g).getChildren = n.getChildren ∧
     (n.setGroupID g)._handles = n._handles) ∧
    ((n.setGroupID g)._matrixUpdated = n._matrixUpdated ∧
     (n.setGroupID g)._opacityUpdated = n._opacityUpdated ∧
     (n.setGroupID g)._localMat = n._localMat ∧
     (n.setGroupID g)._worldMat = n._worldMat ∧
     (n.setGroupID g)._jsTRSData = n._jsTRSData ∧
     (n.setGroupID g)._jsTRS = n._jsTRS) := by
  refine ⟨rfl, ⟨rfl, rfl, rfl, rfl, rfl, rfl, rfl⟩, ⟨rfl, rfl, rfl, rfl, rfl, rfl⟩⟩

end cocos2d.renderer.NodeProxy

/-! ## Properties of MeshBuffer::request (growth) -/

namespace cocos2d.renderer.MeshBuffer

theorem resize_length (l : List Nat) (n : Nat) : (resize l n).length = n := by
  simp only [resize, List.length_append, List.length_take, List.length_replicate]
  omega

theorem resize_eq_append (l : List Nat) (n : Nat) (h : l.length ≤ n) :
    resize l n = l ++ List.replicate (n - l.length) 0 := by
  simp only [resize, List.take_of_length_le h]

theorem grownCapacity_ge (capacity needed : Nat) :
    capacity ≤ grownCapacity capacity needed ∧ needed ≤ grownCapacity capacity needed := by
  unfold grownCapacity
  split <;> omega

/-- What one returning `request` does to a consistent buffer. -/
theorem request_step (p : Platform) (b b' : MeshBuffer) (v i : Nat) (o : OffsetInfo)
    (hb : b.Consistent) (h : request p b v i = some (b', o)) :
    b'.Consistent ∧ (∃ ext, b'.vData = b.vData ++ ext) ∧ (∃ ext, b'.iData = b.iData ++ ext) ∧
    b'._bytesPerVertex = b._bytesPerVertex ∧ b'.Within o ∧
    (v ≠ 0 → b'.RangeWithin v i o) := by
  obtain ⟨hv, hi, hbo, hio⟩ := hb
  unfold request at h
  by_cases hz : v = 0
  · simp only [hz, if_true, Option.some.injEq, Prod.mk.injEq] at h
    obtain ⟨rfl, rfl⟩ := h
    refine ⟨⟨hv, hi, hbo, hio⟩, ⟨[], by simp⟩, ⟨[], by simp⟩, rfl, ?_, fun h => absurd hz h⟩
    simp only [Within, VDATA_BYTE] at *
    omega
  · simp only [hz, if_false, Option.map_eq_some', Prod.mk.injEq] at h
    obtain ⟨b1, hgrown, rfl, rfl⟩ := h
    have hgv := grownCapacity_ge b._vDataCount
      ((b._byteOffset + v * b._bytesPerVertex + VDATA_BYTE - 1) / VDATA_BYTE)
    have hgi := grownCapacity_ge b._iDataCount (b._indexOffset + i)
    by_cases hsame :
        grownCapacity b._vDataCount
            ((b._byteOffset + v * b._bytesPerVertex + VDATA_BYTE - 1) / VDATA_BYTE)
          = b._vDataCount ∧
        grownCapacity b._iDataCount (b._indexOffset + i) = b._iDataCount
    · simp only [hsame, and_self, if_true, Option.some.injEq] at hgrown
      subst hgrown
      rw [hsame.1] at hgv
      rw [hsame.2] at hgi
      simp only [Consistent, Within, RangeWithin, VDATA_BYTE] at *
      refine ⟨⟨hv, hi, ?_, ?_⟩, ⟨[], by simp⟩, ⟨[], by simp⟩, trivial, ⟨?_, ?_⟩, fun _ => ⟨?_, ?_⟩⟩ <;>
        omega
    · simp only [hsame, if_false] at hgrown
      unfold reallocBuffers at hgrown
      split at hgrown
      · simp only [Option.some.injEq] at hgrown
        subst hgrown
        have hlv : b.vData.length ≤ grownCapacity b._vDataCount
            ((b._byteOffset + v * b._bytesPerVertex + VDATA_BYTE - 1) / VDATA_BYTE) := by
          rw [hv]; exact hgv.1
        have hli : b.iData.length ≤ grownCapacity b._iDataCount (b._indexOffset + i) := by
          rw [hi]; exact hgi.1
        simp only [Consistent, Within, RangeWithin, resize_length, VDATA_BYTE] at *
        refine ⟨⟨trivial, trivial, ?_, ?_⟩, ⟨_, resize_eq_append _ _ hlv⟩,
          ⟨_, resize_eq_append _ _ hli⟩, trivial, ⟨?_, ?_⟩, fun _ => ⟨?_, ?_⟩⟩ <;> omega
      · cases hgrown

theorem request_memory_mono (m m' vb ib : Nat) (b : MeshBuffer) (v i : Nat)
    (r : MeshBuffer × OffsetInfo) (hm : m ≤ m')
    (h : request { memory := m, vb := vb, ib := ib } b v i = some r) :
    request { memory := m', vb := vb, ib := ib } b v i = some r := by
  unfold request at h ⊢
  by_cases hz : v = 0
  · simpa only [hz, if_true] using h
  · simp only [hz, if_false] at h ⊢
    split at h
    · rename_i hsame
      simpa only [hsame, and_self, if_true] using h
    · rename_i hsame
      simp only [hsame, if_false]
      unfold reallocBuffers at h ⊢
      split at h
      · rename_i hfit
        have hfit' := Nat.le_trans hfit hm
        simp only [hfit', if_true]
        exact h
      · simp at h

theorem request_returns (vb ib : Nat) (b : MeshBuffer) (v i : Nat) :
    ∃ M r, request { memory := M, vb := vb, ib := ib } b v i = some r := by
  refine ⟨grownCapacity b._vDataCount
      ((b._byteOffset + v * b._bytesPerVertex + VDATA_BYTE - 1) / VDATA_BYTE) * VDATA_BYTE +
    grownCapacity b._iDataCount (b._indexOffset + i) * IDATA_BYTE, ?_⟩
  unfold request
  by_cases hz : v = 0
  · simp only [hz, if_true]
    exact ⟨_, rfl⟩
  · simp only [hz, if_false]
    split
    · exact ⟨_, rfl⟩
    · unfold reallocBuffers
      simp only [Nat.le_refl, if_true]
      exact ⟨_, rfl⟩

theorem requestAll_memory_mono (m m' vb ib : Nat) (hm : m ≤ m') (rs : List (Nat × Nat)) :
    ∀ (b : MeshBuffer) (r : MeshBuffer × List OffsetInfo),
      requestAll { memory := m, vb := vb, ib := ib } b rs = some r →
      requestAll { memory := m', vb := vb, ib := ib } b rs = some r := by
  induction rs with
  | nil => intro b r h; simpa only [requestAll] using h
  | cons x rest ih =>
    intro b r h
    obtain ⟨v, i⟩ := x
    simp only [requestAll, Option.bind_eq_some, Option.map_eq_some'] at h ⊢
    obtain ⟨r1, h1, q, hq, rfl⟩ := h
    exact ⟨r1, request_memory_mono m m' vb ib b v i r1 hm h1, q, ih r1.1 q hq, rfl⟩

/-- With enough memory every sequence of requests is served. -/
theorem requestAll_returns (vb ib : Nat) (rs : List (Nat × Nat)) :
    ∀ b : MeshBuffer, ∃ M, ∀ mem, M ≤ mem →
      ∃ r, requestAll { memory := mem, vb := vb, ib := ib } b rs = some r := by
  induction rs with
  | nil => intro b; exact ⟨0, fun mem _ => ⟨_, rfl⟩⟩
  | cons x rest ih =>
    intro b
    obtain ⟨v, i⟩ := x
    obtain ⟨M1, r1, h1⟩ := request_returns vb ib b v i
    obtain ⟨M2, h2⟩ := ih r1.1
    refine ⟨max M1 M2, fun mem hmem => ?_⟩
    obtain ⟨q, hq⟩ := h2 mem (by omega)
    refine ⟨(q.1, r1.2 :: q.2), ?_⟩
    simp only [requestAll, Option.bind_eq_some, Option.map_eq_some']
    exact ⟨r1, request_memory_mono M1 mem vb ib b v i r1 (by omega) h1, q, hq, rfl⟩

/-- What a returning sequence of requests does to a consistent buffer. -/
theorem requestAll_steps (p : Platform) (rs : List (Nat × Nat)) :
    ∀ (b b' : MeshBuffer) (offs : List OffsetInfo), b.Consistent →
      requestAll p b rs = some (b', offs) →
      b'.Consistent ∧ (∃ ext, b'.vData = b.vData ++ ext) ∧
      (∃ ext, b'.iData = b.iData ++ ext) ∧ b'._bytesPerVertex = b._bytesPerVertex ∧
      offs.length = rs.length ∧ (∀ o ∈ offs, b'.Within o) ∧
      (∀ x ∈ List.zip rs offs, x.1.1 ≠ 0 → b'.RangeWithin x.1.1 x.1.2 x.2) := by
  induction rs with
  | nil =>
    intro b b' offs hb h
    simp only [requestAll, Option.some.injEq, Prod.mk.injEq] at h
    obtain ⟨rfl, rfl⟩ := h
    exact ⟨hb, ⟨[], by simp⟩, ⟨[], by simp⟩, rfl, rfl, by simp, by simp⟩
  | cons x rest ih =>
    intro b b' offs hb h
    obtain ⟨v, i⟩ := x
    simp only [requestAll, Option.bind_eq_some, Option.map_eq_some', Prod.mk.injEq] at h
    obtain ⟨⟨b1, o⟩, h1, ⟨b2, offs2⟩, h2, rfl, rfl⟩ := h
    obtain ⟨hb1, ⟨e1, hv1⟩, ⟨f1, hi1⟩, hbpv1, hw1, hr1⟩ := request_step p b b1 v i o hb h1
    obtain ⟨hb2, ⟨e2, hv2⟩, ⟨f2, hi2⟩, hbpv2, hlen, hw2, hr2⟩ := ih b1 b2 offs2 hb1 h2
    have hlv : b1.vData.length ≤ b2.vData.length := by rw [hv2]; simp
    have hli : b1.iData.length ≤ b2.iData.length := by rw [hi2]; simp
    have hmul : b1.vData.length * VDATA_BYTE ≤ b2.vData.length * VDATA_BYTE :=
      Nat.mul_le_mul_right _ hlv
    refine ⟨hb2, ⟨e1 ++ e2, by rw [hv2, hv1, List.append_assoc]⟩,
      ⟨f1 ++ f2, by rw [hi2, hi1, List.append_assoc]⟩, by rw [hbpv2, hbpv1], ?_, ?_, ?_⟩
    · simp only [List.length_cons, hlen]
    · intro o' ho'
      simp only [List.mem_cons] at ho'
      rcases ho' with rfl | ho'
      · exact ⟨Nat.le_trans hw1.1 hmul, Nat.le_trans hw1.2 hli⟩
      · exact hw2 o' ho'
    · intro y hy hne
      simp only [List.zip_cons_cons, List.mem_cons] at hy
      rcases hy with rfl | hy
      · have hr := hr1 hne
        unfold RangeWithin at hr ⊢
        rw [hbpv2]
        exact ⟨Nat.le_trans hr.1 hmul, Nat.le_trans hr.2 hli⟩
      · exact hr2 y hy hne

/-- Where one returning `request` leaves the write cursor, and what it answers. -/
theorem request_cursor (p : Platform) (b b' : MeshBuffer) (v i : Nat) (o : OffsetInfo)
    (h : request p b v i = some (b', o)) :
    o = b.cursor ∧ b'._bytesPerVertex = b._bytesPerVertex ∧
    b'.cursor = b.cursorAfter [(v, i)] := by
  unfold request at h
  by_cases hz : v = 0
  · simp only [hz, if_true, Option.some.injEq, Prod.mk.injEq] at h
    obtain ⟨rfl, rfl⟩ := h
    simp [cursor, cursorAfter, vertexTotal, indexTotal, hz]
  · simp only [hz, if_false, Option.map_eq_some', Prod.mk.injEq] at h
    obtain ⟨b1, hgrown, rfl, rfl⟩ := h
    have hbpv : b1._bytesPerVertex = b._bytesPerVertex := by
      split at hgrown
      · simp only [Option.some.injEq] at hgrown
        rw [← hgrown]
      · unfold reallocBuffers at hgrown
        split at hgrown
        · simp only [Option.some.injEq] at hgrown
          rw [← hgrown]
        · cases hgrown
    simp [cursor, cursorAfter, vertexTotal, indexTotal, hz, hbpv]

/-- A request whose range fits the storage leaves both blocks as they are. -/
theorem request_fits (p : Platform) (b b' : MeshBuffer) (v i : Nat) (o : OffsetInfo)
    (hb : b.Consistent) (h : request p b v i = some (b', o))
    (hv : (b.cursorAfter [(v, i)]).vByte ≤ b.vData.length * VDATA_BYTE)
    (hi : (b.cursorAfter [(v, i)]).index ≤ b.iData.length) :
    b'.vData = b.vData ∧ b'.iData = b.iData := by
  obtain ⟨hlv, hli, _, _⟩ := hb
  unfold request at h
  by_cases hz : v = 0
  · simp only [hz, if_true, Option.some.injEq, Prod.mk.injEq] at h
    obtain ⟨rfl, _⟩ := h
    exact ⟨rfl, rfl⟩
  · simp only [cursorAfter, vertexTotal, indexTotal, hz, if_false, Nat.add_zero, VDATA_BYTE]
      at hv hi
    have h1 : grownCapacity b._vDataCount
        ((b._byteOffset + v * b._bytesPerVertex + VDATA_BYTE - 1) / VDATA_BYTE)
          = b._vDataCount := by
      unfold grownCapacity
      rw [if_pos]
      simp only [VDATA_BYTE]
      omega
    have h2 : grownCapacity b._iDataCount (b._indexOffset + i) = b._iDataCount := by
      unfold grownCapacity
      rw [if_pos]
      omega
    simp only [hz, if_false, h1, h2, and_self, if_true, Option.map_some', Option.some.injEq,
      Prod.mk.injEq] at h
    obtain ⟨rfl, _⟩ := h
    exact ⟨rfl, rfl⟩

theorem cursorAfter_cons (b b1 : MeshBuffer) (x : Nat × Nat) (l : List (Nat × Nat))
    (hbpv : b1._bytesPerVertex = b._bytesPerVertex) (hc : b1.cursor = b.cursorAfter [x]) :
    b1.cursorAfter l = b.cursorAfter (x :: l) := by
  obtain ⟨v, i⟩ := x
  simp only [cursor, cursorAfter, vertexTotal, indexTotal, Nat.add_zero, OffsetInfo.mk.injEq]
    at hc ⊢
  obtain ⟨h1, h2, h3⟩ := hc
  rw [hbpv, h1, h2, h3, Nat.add_mul]
  refine ⟨?_, ?_, ?_⟩ <;> omega

/-- Where a returning sequence of requests leaves the write cursor, and what it answers:
each request is answered with the cursor moved by the cumulative counts before it. -/
theorem requestAll_cursor (p : Platform) (rs : List (Nat × Nat)) :
    ∀ (b b' : MeshBuffer) (offs : List OffsetInfo),
      requestAll p b rs = some (b', offs) →
      b'.cursor = b.cursorAfter rs ∧
      ∀ k, k < rs.length → offs[k]? = some (b.cursorAfter (rs.take k)) := by
  induction rs with
  | nil =>
    intro b b' offs h
    simp only [requestAll, Option.some.injEq, Prod.mk.injEq] at h
    obtain ⟨rfl, rfl⟩ := h
    refine ⟨by simp [cursor, cursorAfter, vertexTotal, indexTotal], ?_⟩
    intro k hk
    simp at hk
  | cons x rest ih =>
    intro b b' offs h
    obtain ⟨v, i⟩ := x
    simp only [requestAll, Option.bind_eq_some, Option.map_eq_some', Prod.mk.injEq] at h
    obtain ⟨⟨b1, o⟩, h1, ⟨b2, offs2⟩, h2, rfl, rfl⟩ := h
    obtain ⟨ho, hbpv, hc⟩ := request_cursor p b b1 v i o h1
    obtain ⟨hfin, hoffs⟩ := ih b1 b2 offs2 h2
    refine ⟨by rw [hfin]; exact cursorAfter_cons b b1 (v, i) rest hbpv hc, ?_⟩
    intro k hk
    cases k with
    | zero =>
      simp only [List.getElem?_cons_zero, List.take_zero, ho]
      simp [cursor, cursorAfter, vertexTotal, indexTotal]
    | succ k =>
      simp only [List.getElem?_cons_succ, List.take_succ_cons]
      rw [hoffs k (by simpa using hk)]
      exact congrArg some (cursorAfter_cons b b1 (v, i) (rest.take k) hbpv hc)

theorem cursorAfter_mono (b : MeshBuffer) (x : Nat × Nat) (l : List (Nat × Nat)) :
    (b.cursorAfter [x]).vByte ≤ (b.cursorAfter (x :: l)).vByte ∧
    (b.cursorAfter [x]).index ≤ (b.cursorAfter (x :: l)).index := by
  obtain ⟨v, i⟩ := x
  simp only [cursorAfter, vertexTotal, indexTotal, Nat.add_zero]
  refine ⟨?_, by omega⟩
  exact Nat.add_le_add_left (Nat.mul_le_mul_right _ (Nat.le_add_right _ _)) _

/-- A returning sequence of requests whose cumulative counts fit the storage leaves both
blocks as they are. -/
theorem requestAll_fits (p : Platform) (rs : List (Nat × Nat)) :
    ∀ (b b' : MeshBuffer) (offs : List OffsetInfo), b.Consistent →
      requestAll p b rs = some (b', offs) →
      (b.cursorAfter rs).vByte ≤ b.vData.length * VDATA_BYTE →
      (b.cursorAfter rs).index ≤ b.iData.length →
      b'.vData = b.vData ∧ b'.iData = b.iData := by
  induction rs with
  | nil =>
    intro b b' offs _ h _ _
    simp only [requestAll, Option.some.injEq, Prod.mk.injEq] at h
    obtain ⟨rfl, _⟩ := h
    exact ⟨rfl, rfl⟩
  | cons x rest ih =>
    intro b b' offs hb h hv hi
    obtain ⟨v, i⟩ := x
    simp only [requestAll, Option.bind_eq_some, Option.map_eq_some', Prod.mk.injEq] at h
    obtain ⟨⟨b1, o⟩, h1, ⟨b2, offs2⟩, h2, rfl, rfl⟩ := h
    obtain ⟨_, hbpv, hc⟩ := request_cursor p b b1 v i o h1
    have hmono := cursorAfter_mono b (v, i) rest
    obtain ⟨hv1, hi1⟩ := request_fits p b b1 v i o hb h1
      (Nat.le_trans hmono.1 hv) (Nat.le_trans hmono.2 hi)
    have hb1 := (request_step p b b1 v i o hb h1).1
    have hcons := cursorAfter_cons b b1 (v, i) rest hbpv hc
    obtain ⟨hv2, hi2⟩ := ih b1 b2 offs2 hb1 h2
      (by rw [hcons, hv1]; exact hv) (by rw [hcons, hi1]; exact hi)
    exact ⟨by rw [hv2, hv1], by rw [hi2, hi1]⟩

theorem create_consistent (batcher fmt bytesPerVertex indexCapacity vb ib : Nat) :
    (create batcher fmt bytesPerVertex indexCapacity vb ib).Consistent := by
  simp only [Consistent, create, List.length_replicate]
  exact ⟨trivial, trivial, Nat.zero_le _, Nat.zero_le _⟩

/-- The cumulative counts of the two requests above: the second is answered with the cursor
after 200 vertices (4000 bytes) and 300 indices, and the final cursor is at 300 vertices
(6000 bytes, above the 5120 the buffer was created with) and 1800 indices (above 1536). -/
theorem cursorAfter_create_two_requests :
    (create 1 1 20 1536 2 3).cursorAfter ([(200, 300), (100, 1500)].take 1) =
      { vByte := 4000, index := 300, vertex := 200 } ∧
    (create 1 1 20 1536 2 3).cursorAfter [(200, 300), (100, 1500)] =
      { vByte := 6000, index := 1800, vertex := 300 } ∧
    INIT_VERTEX_COUNT * 20 = 5120 := by
  decide

/-- A run of the growth path: `quadPending` is full (4 vertices of 20 bytes, 6 indices); a
request for another quad doubles both blocks, keeps the six indices written, and answers
with the old write cursor. -/
theorem request_quadPending_grows :
    quadPending.Consistent ∧
    (request { memory := 1024, vb := 5, ib := 6 } quadPending 4 6).map
        (fun r => (r.1.vData.length, r.1.iData, r.1._byteOffset, r.1._indexOffset, r.2)) =
      some (40, [0, 1, 2, 1, 3, 2, 0, 0, 0, 0, 0, 0], 160, 12,
        { vByte := 80, index := 6, vertex := 4 }) ∧
    request { memory := 100, vb := 5, ib := 6 } quadPending 4 6 = none := by
  decide

end cocos2d.renderer.MeshBuffer

/-! ## Properties of EditorRenderHandle::updateIA: the other positions of the pool -/

namespace editor
open cocos2d.renderer

theorem updateIA_poolDistinct (fresh : InputAssembler) (mgr : EditorManager) (s s' : State)
    (index : Nat) (start count : Int) (hlive : PoolLive s) (hdist : PoolDistinct s)
    (h : updateIA fresh mgr s index start count = some s') : PoolDistinct s' := by
  unfold PoolDistinct at *
  rcases updateIA_some_cases fresh mgr s s' index start count h with
    ⟨heq, rfl⟩ | ⟨hlt, obj, _, rfl⟩ | ⟨_, rfl⟩
  · refine List.Nodup.append hdist (List.nodup_singleton _) ?_
    intro p hp hp'
    simp only [List.mem_singleton] at hp'
    have := hlive p hp
    omega
  · exact hdist
  · exact hdist

theorem run_poolDistinct (c : Call) (s s' : State) (hlive : PoolLive s)
    (hdist : PoolDistinct s) (h : c.run s = some s') : PoolDistinct s' := by
  cases c with
  | updateIA fresh mgr index start count =>
    exact updateIA_poolDistinct fresh mgr s s' index start count hlive hdist h
  | renderIA index batcher =>
    simp only [Call.run, Option.map_eq_some', Prod.exists, exists_and_right, exists_eq_right] at h
    obtain ⟨b', hb⟩ := h
    have h2 := renderIA_self_heap s s' index batcher b' hb
    unfold PoolDistinct at *
    rw [h2.1]; exact hdist

theorem runCalls_poolDistinct (cs : List Call) (s s' : State) (hlive : PoolLive s)
    (hdist : PoolDistinct s) (h : runCalls s cs = some s') : PoolDistinct s' := by
  induction cs generalizing s with
  | nil =>
    simp only [runCalls, Option.some.injEq] at h
    subst h; exact hdist
  | cons c cs ih =>
    simp only [runCalls, Option.bind_eq_some] at h
    obtain ⟨s1, h1, h2⟩ := h
    exact ih s1 (run_poolLive c s s1 hlive h1) (run_poolDistinct c s s1 hlive hdist h1) h2

/-- In every state reachable from an empty handle the pool pointers are live and pairwise
different. -/
theorem reachable_poolDistinct (s : State) (h : Reachable s) :
    PoolLive s ∧ PoolDistinct s := by
  refine ⟨(reachable_inv s h).2, ?_⟩
  obtain ⟨heap, console, editorMgr, cs, hrun⟩ := h
  refine runCalls_poolDistinct cs _ s ?_ ?_ hrun
  · simp [PoolLive, EditorRenderHandle.empty]
  · simp [PoolDistinct, EditorRenderHandle.empty]

/-- C11: a successful `updateIA(index, start, count)` (`index <= _iaPool.size()`, on a handle
whose pool pointers are live and pairwise different, as in every reachable state) modifies
only the assembler at position `index`: every position `j != index` that existed before
the call holds the same pointer afterwards (the same object), that object exists and has the
same start, count, vertex buffer and index buffer as before; and every object of the free
store other than the one now at position `index` is unchanged. -/
theorem updateIA_keeps_other_assemblers (fresh : InputAssembler) (mgr : EditorManager)
    (s : State) (index : Nat) (start count : Int) (hlive : PoolLive s)
    (hdist : PoolDistinct s) (hidx : index ≤ s.self._iaPool.length) :
    ∃ s', updateIA fresh mgr s index start count = some s' ∧
      (∀ j, j ≠ index → j < s.self._iaPool.length →
        s'.self._iaPool[j]? = s.self._iaPool[j]? ∧
        ∃ obj, assemblerAt s j = some obj ∧ assemblerAt s' j = some obj) ∧
      (∀ p, p < s.heap.length → s'.self._iaPool[index]? ≠ some p →
        s'.heap[p]? = s.heap[p]?) := by
  rcases Nat.lt_or_eq_of_le hidx with hlt | heq
  · obtain ⟨obj, hobj⟩ := poolLive_lookup s hlive index hlt
    refine ⟨_, updateIA_inplace fresh mgr s index start count hlt obj hobj, ?_, ?_⟩
    · intro j hj hjlt
      refine ⟨rfl, ?_⟩
      obtain ⟨objj, hobjj⟩ := poolLive_lookup s hlive j hjlt
      have hne : s.self._iaPool[index] ≠ s.self._iaPool[j] := by
        intro heq
        exact hj ((List.Nodup.getElem_inj_iff hdist).mp heq).symm
      refine ⟨objj, ?_, ?_⟩
      · simp [assemblerAt, hjlt, hobjj]
      · simp only [assemblerAt, List.getElem?_eq_getElem hjlt, Option.some_bind]
        rw [List.getElem?_set_ne hne]
        exact hobjj
    · intro p _ hp
      have hne : s.self._iaPool[index] ≠ p := by
        intro heq
        apply hp
        simp [hlt, heq]
      simp only
      rw [List.getElem?_set_ne hne]
  · refine ⟨_, updateIA_append fresh mgr s index start count heq, ?_, ?_⟩
    · intro j hj hjlt
      refine ⟨by simp only; rw [List.getElem?_append_left hjlt], ?_⟩
      obtain ⟨objj, hobjj⟩ := poolLive_lookup s hlive j hjlt
      have hp : s.self._iaPool[j] < s.heap.length := hlive _ (List.getElem_mem hjlt)
      refine ⟨objj, ?_, ?_⟩
      · simp [assemblerAt, hjlt, hobjj]
      · simp only [assemblerAt]
        rw [List.getElem?_append_left hjlt, List.getElem?_eq_getElem hjlt, Option.some_bind,
          List.getElem?_append_left hp]
        exact hobjj
    · intro p hp _
      simp only
      rw [List.getElem?_append_left hp]

/-- C11 at `twoRanges`: giving a new range to position 0 leaves position 1 as it is. -/
theorem updateIA_keeps_other_assemblers_witness :
    PoolLive twoRanges ∧ PoolDistinct twoRanges ∧ 0 ≤ twoRanges.self._iaPool.length ∧
    ∃ s', updateIA blankIA mgr78 twoRanges 0 24 6 = some s' ∧
      (∀ j, j ≠ 0 → j < twoRanges.self._iaPool.length →
        s'.self._iaPool[j]? = twoRanges.self._iaPool[j]? ∧
        ∃ obj, assemblerAt twoRanges j = some obj ∧ assemblerAt s' j = some obj) ∧
      (∀ p, p < twoRanges.heap.length → s'.self._iaPool[0]? ≠ some p →
        s'.heap[p]? = twoRanges.heap[p]?) :=
  ⟨by decide, by decide, by decide,
    updateIA_keeps_other_assemblers blankIA mgr78 twoRanges 0 24 6
      (by decide) (by decide) (by decide)⟩

end editor

/-! ## Properties of the NodeProxy dirty flags -/

namespace cocos2d.renderer.NodeProxy

/-- Two integers with the same bits are equal. -/
theorem int_eq_of_testBit_eq (x y : Int) (h : ∀ k, Int.testBit x k = Int.testBit y k) :
    x = y := by
  have hfar : ∀ a b : Nat, a.testBit (max a b) = false ∧ b.testBit (max a b) = false :=
    fun a b =>
      ⟨Nat.testBit_lt_two_pow (Nat.lt_of_le_of_lt (Nat.le_max_left a b) (Nat.lt_two_pow _)),
       Nat.testBit_lt_two_pow (Nat.lt_of_le_of_lt (Nat.le_max_right a b) (Nat.lt_two_pow _))⟩
  cases x with
  | ofNat a =>
    cases y with
    | ofNat b =>
      have hab : a = b := Nat.eq_of_testBit_eq (fun k => by simpa [Int.testBit] using h k)
      rw [hab]
    | negSucc b =>
      exfalso
      have hk := h (max a b)
      simp [Int.testBit, (hfar a b).1, (hfar a b).2] at hk
  | negSucc a =>
    cases y with
    | ofNat b =>
      exfalso
      have hk := h (max a b)
      simp [Int.testBit, (hfar a b).1, (hfar a b).2] at hk
    | negSucc b =>
      have hab : a = b := Nat.eq_of_testBit_eq (fun k => by
        have hk := h k
        simp only [Int.testBit] at hk
        cases ha : a.testBit k <;> cases hb : b.testBit k <;> simp_all)
      rw [hab]

/-- Setting the bits of `f` does not change the test of a mask `g` that shares no bit with
`f`. -/
theorem land_lor_of_disjoint (m f g : Int) (h : Int.land f g = 0) :
    Int.land (Int.lor m f) g = Int.land m g := by
  apply int_eq_of_testBit_eq
  intro k
  have hk : (Int.testBit f k && Int.testBit g k) = false := by
    rw [← Int.testBit_land, h]; simp [Int.testBit]
  rw [Int.testBit_land, Int.testBit_lor, Int.testBit_land]
  cases hm : Int.testBit m k <;> cases hf : Int.testBit f k <;> cases hg : Int.testBit g k <;>
    simp_all

/-- Clearing the bits of `f` does not change the test of a mask `g` that shares no bit with
`f`. -/
theorem land_lnot_of_disjoint (m f g : Int) (h : Int.land f g = 0) :
    Int.land (Int.land m (Int.lnot f)) g = Int.land m g := by
  apply int_eq_of_testBit_eq
  intro k
  have hk : (Int.testBit f k && Int.testBit g k) = false := by
    rw [← Int.testBit_land, h]; simp [Int.testBit]
  rw [Int.testBit_land, Int.testBit_land, Int.testBit_lnot, Int.testBit_land]
  cases hm : Int.testBit m k <;> cases hf : Int.testBit f k <;> cases hg : Int.testBit g k <;>
    simp_all

/-- The power of two `2 ^ k`, as an integer, has the bit `k` set and no other. -/
theorem testBit_two_pow (k j : Nat) : Int.testBit ((2 : Int) ^ k) j = decide (k = j) := by
  have h : ((2 : Int) ^ k) = Int.ofNat (2 ^ k) := by simp
  rw [h]
  show Nat.testBit (2 ^ k) j = decide (k = j)
  exact Nat.testBit_two_pow

theorem mem_dirtyFlags (f : Int) (hf : f ∈ dirtyFlags) :
    f = 2 ^ 0 ∨ f = 2 ^ 1 ∨ f = 2 ^ 2 ∨ f = 2 ^ 3 ∨ f = 2 ^ 4 ∨ f = 2 ^ 5 := by
  simp only [dirtyFlags, List.mem_cons, List.mem_singleton, List.not_mem_nil, or_false] at hf
  have h0 : _TRANSFORM = 2 ^ 0 := by decide
  have h1 : _UPDATE_RENDER_DATA = 2 ^ 1 := by decide
  have h2 : _OPACITY = 2 ^ 2 := by decide
  have h3 : _COLOR = 2 ^ 3 := by decide
  have h4 : _CHILDREN = 2 ^ 4 := by decide
  have h5 : _POST_UPDATE_RENDER_DATA = 2 ^ 5 := by decide
  rw [h0, h1, h2, h3, h4, h5] at hf
  exact hf

/-- C12: the six dirty flags are the six different single-bit masks `1 << 0` .. `1 << 5`
(the values 1, 2, 4, 8, 16, 32; flag number `k` has bit `k` set and no other). For two
different flags `f` and `g` the bitwise AND `f & g` is 0, and for every bitmask `m`, setting
`f` (`m | f`) or clearing `f` (`m & ~f`) leaves the test `m & g` unchanged. -/
theorem dirty_flags_independent (m f g : Int) (hf : f ∈ dirtyFlags) (hg : g ∈ dirtyFlags)
    (hne : f ≠ g) :
    (dirtyFlags = [1, 2, 4, 8, 16, 32] ∧ dirtyFlags.Nodup ∧
      ∀ k : Nat, k < 6 → dirtyFlags[k]? = some ((1 : Int) <<< (k : Int)) ∧
        ∀ j : Nat, (dirtyFlags[k]?.map fun x => Int.testBit x j) = some (decide (k = j))) ∧
    Int.land f g = 0 ∧
    Int.land (Int.lor m f) g = Int.land m g ∧
    Int.land (Int.land m (Int.lnot f)) g = Int.land m g := by
  have hdisj : Int.land f g = 0 := by
    rcases mem_dirtyFlags f hf with h | h | h | h | h | h <;>
      rcases mem_dirtyFlags g hg with h' | h' | h' | h' | h' | h' <;>
      subst h <;> subst h' <;> first | exact absurd rfl hne | decide
  refine ⟨⟨by decide, by decide, ?_⟩, hdisj, land_lor_of_disjoint m f g hdisj,
    land_lnot_of_disjoint m f g hdisj⟩
  intro k hk
  have hcases : k = 0 ∨ k = 1 ∨ k = 2 ∨ k = 3 ∨ k = 4 ∨ k = 5 := by omega
  rcases hcases with rfl | rfl | rfl | rfl | rfl | rfl
  · exact ⟨by decide, fun j => congrArg some (testBit_two_pow 0 j)⟩
  · exact ⟨by decide, fun j => congrArg some (testBit_two_pow 1 j)⟩
  · exact ⟨by decide, fun j => congrArg some (testBit_two_pow 2 j)⟩
  · exact ⟨by decide, fun j => congrArg some (testBit_two_pow 3 j)⟩
  · exact ⟨by decide, fun j => congrArg some (testBit_two_pow 4 j)⟩
  · exact ⟨by decide, fun j => congrArg some (testBit_two_pow 5 j)⟩

/-- C12 at the mask 13 (transform, opacity and color dirty): setting or clearing
`_UPDATE_RENDER_DATA` leaves the test of `_OPACITY` unchanged. -/
theorem dirty_flags_independent_witness :
    _UPDATE_RENDER_DATA ∈ dirtyFlags ∧ _OPACITY ∈ dirtyFlags ∧
    _UPDATE_RENDER_DATA ≠ _OPACITY ∧
    Int.land _UPDATE_RENDER_DATA _OPACITY = 0 ∧
    Int.land (Int.lor 13 _UPDATE_RENDER_DATA) _OPACITY = Int.land 13 _OPACITY ∧
    Int.land (Int.land 13 (Int.lnot _UPDATE_RENDER_DATA)) _OPACITY = Int.land 13 _OPACITY :=
  ⟨by decide, by decide, by decide,
    (dirty_flags_independent 13 _UPDATE_RENDER_DATA _OPACITY
      (by decide) (by decide) (by decide)).2⟩

end cocos2d.renderer.NodeProxy
